import Mathlib

/-!
Shallow embedding of `ecs_fargate_app/lambda_vector_processor/vector_processor.py`,
the document-to-vector ingestion pipeline of the well-architected-iac-analyzer
repository: windowed chunking with sentence-boundary snapping (`chunk_text`),
content-addressed chunk ids (`generate_chunk_id` = SHA-256 over text plus a
sorted-key JSON serialization of the metadata), the per-document pipeline
(`process_document`), persistence (`store_vectors`), the aggregate index
(`update_index`) and the Lambda entry point (`handler`).

Python strings are modelled as `List Char`, Python ints as `Int` (slice
indices can go negative), the S3 buckets as explicit state threaded through
the handler, and the external collaborators (S3 reads, Bedrock embedding
calls, wall-clock timestamps, write failures) as an `Env` of oracle
functions.  The only loop without an a-priori bound (the `while` of
`chunk_text`) is given fuel; sufficiency of the fuel is proved for the
configurations the theorems use.
-/

set_option maxRecDepth 8000
set_option maxHeartbeats 3200000

/-- Python slice-index normalization: `s[a:b]` clamps a negative index by
adding `len(s)` (floored at 0) and clamps a too-large index to `len(s)`. -/
def pyNorm (n : Nat) (i : Int) : Nat :=
  if i < 0 then ((n : Int) + i).toNat
  else if i ≤ (n : Int) then i.toNat
  else n

/-- Python string slice `s[a:b]` (step 1). -/
def pySlice (l : List Char) (a b : Int) : List Char :=
  (l.take (pyNorm l.length b)).drop (pyNorm l.length a)

/-- Index of the last occurrence of `ch`, if any (helper for `str.rfind`). -/
def rfindAux (ch : Char) : List Char → Option Nat
  | [] => none
  | c :: rest =>
    match rfindAux ch rest with
    | some j => some (j + 1)
    | none => if c = ch then some 0 else none

/-- Python `s.rfind(ch)` for a single-character needle: the highest index at
which `ch` occurs, or `-1` when it does not occur. -/
def rfind (l : List Char) (ch : Char) : Int :=
  match rfindAux ch l with
  | some i => (i : Int)
  | none => -1

/-- The whitespace class of Python `str.strip()` (ASCII part). -/
def isPySpace (c : Char) : Bool :=
  c == ' ' || c == Char.ofNat 9 || c == Char.ofNat 10 ||
    c == Char.ofNat 11 || c == Char.ofNat 12 || c == Char.ofNat 13

/-- Python `s.strip()`. -/
def pyStrip (l : List Char) : List Char :=
  ((l.dropWhile isPySpace).reverse.dropWhile isPySpace).reverse

/-- One element of the list returned by `chunk_text` (vector_processor.py
lines 56-61): the stripped slice plus its offset bookkeeping. -/
structure Chunk where
  text : List Char
  chunk_index : Nat
  start_char : Int
  end_char : Int
deriving DecidableEq, Repr

/-- The window end chosen by one iteration of `chunk_text`'s loop (lines
43-54): tentatively `start + char_chunk_size`; when that does not reach the
end of the text, the last period or newline of the window is taken as a
break point and, when it lies past 70% of the window, the end snaps to just
after it.

The source compares `break_point > char_chunk_size * 0.7` in IEEE-754
doubles; it is rendered here as the exact `10 * break_point > 7 * ccs`.  At
the window sizes exercised below the two agree: for `char_chunk_size = 3200`
(the default 800 * 4) the double product is exactly 2240.0, so both accept
precisely `break_point ≥ 2241`, and for `char_chunk_size = 12` the text in
question contains no period or newline, so `break_point = -1` fails both. -/
def chunkEnd (text : List Char) (ccs : Int) (s : Int) : Int :=
  let e0 := s + ccs
  if e0 < (text.length : Int) then
    let w := pySlice text s e0
    let break_point := max (rfind w '.') (rfind w (Char.ofNat 10))
    if 10 * break_point > 7 * ccs then s + break_point + 1 else e0
  else e0

/-- The `while start < len(text)` loop of `chunk_text` (lines 42-64), with
fuel: `none` means the given fuel was exhausted before the loop exited.
Each iteration appends the chunk for the current window and advances the
start to `end - char_overlap`; no forward-progress clamp exists in the
source. -/
def chunk_text_loop (text : List Char) (ccs co : Int) :
    Nat → Int → Nat → List Chunk → Option (List Chunk)
  | 0, start, _, acc =>
    if start < (text.length : Int) then none else some acc
  | fuel + 1, start, chunk_index, acc =>
    if start < (text.length : Int) then
      let e := chunkEnd text ccs start
      chunk_text_loop text ccs co fuel (e - co) (chunk_index + 1)
        (acc ++ [⟨pyStrip (pySlice text start e), chunk_index, start, e⟩])
    else some acc

/-- `chunk_text(text, chunk_size, overlap)` (lines 22-66): sizes are given
in approximate tokens and multiplied by 4 into characters. -/
def chunk_text_fuel (fuel : Nat) (text : List Char)
    (chunk_size overlap : Int) : Option (List Chunk) :=
  chunk_text_loop text (chunk_size * 4) (overlap * 4) fuel 0 0 []

/-- `chunk_text(text)` at the default configuration `chunk_size=800`,
`overlap=60` (characters: window 3200, overlap 240).  The fuel
`text.length + 1` is proved sufficient below (`chunk_text_default_spec`). -/
def chunk_text_default (text : List Char) : List Chunk :=
  (chunk_text_fuel (text.length + 1) text 800 60).getD []

/-- `chunk_text` at a configuration with `overlap ≥ chunk_size` never
terminates on this text: every fuel is exhausted. -/
def chunkTextDiverges (text : List Char) (chunk_size overlap : Int) : Prop :=
  ∀ fuel : Nat, chunk_text_fuel fuel text chunk_size overlap = none

/-! ## SHA-256 and the serialization feeding `generate_chunk_id` -/

/-- Truncation to 32 bits. -/
def w32 (x : Nat) : Nat := x &&& 0xFFFFFFFF

/-- 32-bit right rotation. -/
def rotr32 (n x : Nat) : Nat := w32 ((x >>> n) ||| (x <<< (32 - n)))

def shaCh (x y z : Nat) : Nat := (x &&& y) ^^^ ((x ^^^ 0xFFFFFFFF) &&& z)

def shaMaj (x y z : Nat) : Nat := (x &&& y) ^^^ (x &&& z) ^^^ (y &&& z)

def shaS0 (x : Nat) : Nat := rotr32 2 x ^^^ rotr32 13 x ^^^ rotr32 22 x

def shaS1 (x : Nat) : Nat := rotr32 6 x ^^^ rotr32 11 x ^^^ rotr32 25 x

def shas0 (x : Nat) : Nat := rotr32 7 x ^^^ rotr32 18 x ^^^ (x >>> 3)

def shas1 (x : Nat) : Nat := rotr32 17 x ^^^ rotr32 19 x ^^^ (x >>> 10)

/-- The 64 SHA-256 round constants (FIPS 180-4), written in decimal. -/
def shaK : List Nat := [
  1116352408, 1899447441, 3049323471, 3921009573, 961987163,
  1508970993, 2453635748, 2870763221, 3624381080, 310598401,
  607225278, 1426881987, 1925078388, 2162078206, 2614888103,
  3248222580, 3835390401, 4022224774, 264347078, 604807628,
  770255983, 1249150122, 1555081692, 1996064986, 2554220882,
  2821834349, 2952996808, 3210313671, 3336571891, 3584528711,
  113926993, 338241895, 666307205, 773529912, 1294757372,
  1396182291, 1695183700, 1986661051, 2177026350, 2456956037,
  2730485921, 2820302411, 3259730800, 3345764771, 3516065817,
  3600352804, 4094571909, 275423344, 430227734, 506948616,
  659060556, 883997877, 958139571, 1322822218, 1537002063,
  1747873779, 1955562222, 2024104815, 2227730452, 2361852424,
  2428436474, 2756734187, 3204031479, 3329325298]

/-- The SHA-256 initial hash value (FIPS 180-4), written in decimal. -/
def shaH0 : List Nat := [
  1779033703, 3144134277, 1013904242, 2773480762,
  1359893119, 2600822924, 528734635, 1541459225]

/-- `k` bytes of `n`, big-endian. -/
def beBytes (k : Nat) (n : Nat) : List Nat :=
  (List.range k).map (fun i => (n >>> (8 * (k - 1 - i))) &&& 255)

/-- SHA-256 message padding: a 0x80 byte, zeros to 56 mod 64, then the
bit length as 8 big-endian bytes. -/
def shaPad (msg : List Nat) : List Nat :=
  msg ++ 128 :: List.replicate ((119 - msg.length % 64) % 64) 0 ++
    beBytes 8 (8 * msg.length)

/-- Split into 64-byte blocks (fuel bounded by the list length). -/
def shaBlocks : Nat → List Nat → List (List Nat)
  | 0, _ => []
  | _, [] => []
  | fuel + 1, l => l.take 64 :: shaBlocks fuel (l.drop 64)

/-- The 16 big-endian 32-bit words of one block. -/
def shaWords (block : List Nat) : List Nat :=
  (List.range 16).map (fun i =>
    (block.getD (4 * i) 0) <<< 24 ||| (block.getD (4 * i + 1) 0) <<< 16 |||
      (block.getD (4 * i + 2) 0) <<< 8 ||| block.getD (4 * i + 3) 0)

/-- Extension of the 16 message words to the 64-entry schedule. -/
def shaSchedule (w16 : List Nat) : List Nat :=
  (List.range 48).foldl (fun w i =>
    w ++ [w32 (shas1 (w.getD (i + 14) 0) + w.getD (i + 9) 0 +
      shas0 (w.getD (i + 1) 0) + w.getD i 0)]) w16

/-- The 64-round compression of one block into the running hash. -/
def shaCompress (H : List Nat) (w16 : List Nat) : List Nat :=
  let w := shaSchedule w16
  let st0 := (H.getD 0 0, H.getD 1 0, H.getD 2 0, H.getD 3 0,
              H.getD 4 0, H.getD 5 0, H.getD 6 0, H.getD 7 0)
  let stN := (List.range 64).foldl (fun st i =>
    let (a, b, c, d, e, f, g, h) := st
    let t1 := w32 (h + shaS1 e + shaCh e f g + shaK.getD i 0 + w.getD i 0)
    let t2 := w32 (shaS0 a + shaMaj a b c)
    (w32 (t1 + t2), a, b, c, w32 (d + t1), e, f, g)) st0
  let (a, b, c, d, e, f, g, h) := stN
  [w32 (H.getD 0 0 + a), w32 (H.getD 1 0 + b), w32 (H.getD 2 0 + c),
   w32 (H.getD 3 0 + d), w32 (H.getD 4 0 + e), w32 (H.getD 5 0 + f),
   w32 (H.getD 6 0 + g), w32 (H.getD 7 0 + h)]

/-- SHA-256 of a byte list, as the 32 digest bytes. -/
def sha256 (msg : List Nat) : List Nat :=
  let padded := shaPad msg
  let final := (shaBlocks padded.length padded).foldl
    (fun H b => shaCompress H (shaWords b)) shaH0
  (final.map (beBytes 4)).flatten

def hexChar (n : Nat) : Char := "0123456789abcdef".data.getD n '0'

/-- Lower-case hex rendering of a byte list (Python `hexdigest()`). -/
def hexdigest (bytes : List Nat) : String :=
  String.mk ((bytes.map (fun b => [hexChar (b / 16), hexChar (b % 16)])).flatten)

/-- UTF-8 bytes of one character (Python `str.encode()`). -/
def charUtf8 (c : Char) : List Nat :=
  let n := c.toNat
  if n < 0x80 then [n]
  else if n < 0x800 then
    [0xC0 ||| (n >>> 6), 0x80 ||| (n &&& 0x3F)]
  else if n < 0x10000 then
    [0xE0 ||| (n >>> 12), 0x80 ||| ((n >>> 6) &&& 0x3F), 0x80 ||| (n &&& 0x3F)]
  else
    [0xF0 ||| (n >>> 18), 0x80 ||| ((n >>> 12) &&& 0x3F),
     0x80 ||| ((n >>> 6) &&& 0x3F), 0x80 ||| (n &&& 0x3F)]

/-- UTF-8 encoding of a string (Python `str.encode()`). -/
def utf8Encode (l : List Char) : List Nat := (l.map charUtf8).flatten

def hex4 (n : Nat) : List Char :=
  [hexChar (n / 4096 % 16), hexChar (n / 256 % 16), hexChar (n / 16 % 16),
   hexChar (n % 16)]

/-- The escaping of one character inside a JSON string as `json.dumps` does
it with its default `ensure_ascii=True`. -/
def jsonEscapeChar (c : Char) : List Char :=
  if c = '"' then ['\\', '"']
  else if c = '\\' then ['\\', '\\']
  else if c = Char.ofNat 10 then ['\\', 'n']
  else if c = Char.ofNat 13 then ['\\', 'r']
  else if c = Char.ofNat 9 then ['\\', 't']
  else if c = Char.ofNat 8 then ['\\', 'b']
  else if c = Char.ofNat 12 then ['\\', 'f']
  else if c.toNat < 32 then '\\' :: 'u' :: hex4 c.toNat
  else if c.toNat < 128 then [c]
  else if c.toNat < 0x10000 then '\\' :: 'u' :: hex4 c.toNat
  else
    let v := c.toNat - 0x10000
    ('\\' :: 'u' :: hex4 (0xD800 + v / 1024)) ++
      ('\\' :: 'u' :: hex4 (0xDC00 + v % 1024))

/-- A JSON string literal for `s` (quotes included). -/
def jsonStr (s : String) : String :=
  String.mk ('"' :: (s.data.map jsonEscapeChar).flatten ++ ['"'])

/-- The metadata dict built for each chunk by `process_document`
(lines 143-151). -/
structure Metadata where
  lens_name : String
  pillar : String
  source_file : String
  chunk_index : Nat
  start_char : Int
  end_char : Int
  processed_at : String
deriving DecidableEq, Repr

/-- `json.dumps(metadata, sort_keys=True)`: keys in ASCII order, the default
`", "` / `": "` separators. -/
def jsonDumpsMetadata (m : Metadata) : String :=
  "\x7b\"chunk_index\": " ++ toString m.chunk_index ++
    ", \"end_char\": " ++ toString m.end_char ++
    ", \"lens_name\": " ++ jsonStr m.lens_name ++
    ", \"pillar\": " ++ jsonStr m.pillar ++
    ", \"processed_at\": " ++ jsonStr m.processed_at ++
    ", \"source_file\": " ++ jsonStr m.source_file ++
    ", \"start_char\": " ++ toString m.start_char ++ "\x7d"

/-- `generate_chunk_id(text, metadata)` (lines 96-108): the first 16 hex
characters of the SHA-256 of the chunk text concatenated with the sorted-key
JSON serialization of the metadata — the full metadata, `processed_at`
included. -/
def generate_chunk_id (text : List Char) (m : Metadata) : String :=
  (hexdigest (sha256 (utf8Encode
    (String.mk text ++ jsonDumpsMetadata m).data))).take 16

/-! ## The pipeline: environment, state, and the handler -/

/-- `int(os.environ.get('EMBEDDING_DIMENSIONS', '1024'))`. -/
def EMBEDDING_DIMENSIONS : Nat := 1024

/-- A Python-dict lookup on an association list (keys unique as in a dict). -/
def alookup (k : String) : List (String × α) → Option α
  | [] => none
  | (k2, v) :: t => if k2 = k then some v else alookup k t

/-- Python-dict assignment `d[k] = v`: replace in place when the key exists,
append otherwise. -/
def upsert (l : List (String × α)) (k : String) (v : α) : List (String × α) :=
  match l with
  | [] => [(k, v)]
  | (k2, v2) :: t => if k2 = k then (k, v) :: t else (k2, v2) :: upsert t k v

/-- One stored chunk object (the dict serialized by `store_vectors`,
lines 156-161). -/
structure ChunkRecord where
  id : String
  text : List Char
  embedding : List Int
  metadata : Metadata
deriving DecidableEq, Repr

/-- One pillar's entry in the master index (lines 214-217). -/
structure PillarEntry where
  chunk_count : Int
  last_updated : String
deriving DecidableEq, Repr

/-- One lens's entry in the master index. -/
structure LensEntry where
  pillars : List (String × PillarEntry)
deriving DecidableEq, Repr

/-- The master index object at `metadata/index.json` (lines 201-217). -/
structure Index where
  lenses : List (String × LensEntry)
deriving DecidableEq, Repr

/-- `index['lenses'][L]['pillars'][P]`, when present. -/
def lookupPillar (i : Index) (lens pillar : String) : Option PillarEntry :=
  (alookup lens i.lenses).bind (fun le => alookup pillar le.pillars)

/-- The contents of the vectors bucket: the chunk objects by S3 key, and the
master index object (`none` = `NoSuchKey`). -/
structure S3State where
  chunkObjects : List (String × ChunkRecord)
  indexObj : Option Index
deriving DecidableEq, Repr

/-- The external collaborators, as oracles.  Errors carry `str(e)`.
`sourceRead` is `get_object` on the source bucket plus UTF-8 decoding;
`embed` is the whole Bedrock `invoke_model` call of `generate_embedding`
(lines 69-93) including response parsing — note the code performs no check
on the returned vector, it returns `result['embedding']` as is; `putFail`
says whether `put_object` at a key raises; `chunkNow` is the
`datetime.utcnow().isoformat()` read for chunk `i` in `process_document`,
`indexNow` the one read in `update_index`. -/
structure Env where
  sourceRead : String → Except String (List Char)
  embed : List Char → Except String (List Int)
  putFail : String → Option String
  chunkNow : Nat → String
  indexNow : String

/-- The per-chunk body of `process_document`'s loop (lines 138-161):
embed, build metadata (with a fresh timestamp), derive the id, collect. -/
def embedChunks (env : Env) (lens_name pillar source_file : String) :
    List Chunk → Except String (List ChunkRecord)
  | [] => .ok []
  | c :: rest =>
    match env.embed c.text with
    | .error e => .error e
    | .ok emb =>
      let m : Metadata := ⟨lens_name, pillar, source_file, c.chunk_index,
        c.start_char, c.end_char, env.chunkNow c.chunk_index⟩
      let cid := generate_chunk_id c.text m
      match embedChunks env lens_name pillar source_file rest with
      | .error e => .error e
      | .ok tail => .ok (⟨cid, c.text, emb, m⟩ :: tail)

/-- `process_document(source_key, lens_name, pillar, source_file)`
(lines 111-163): read the source, chunk it with the default configuration,
then embed each chunk in order.  It performs no writes. -/
def process_document (env : Env) (source_key lens_name pillar source_file :
    String) : Except String (List ChunkRecord) :=
  match env.sourceRead source_key with
  | .error e => .error e
  | .ok content => embedChunks env lens_name pillar source_file
      (chunk_text_default content)

/-- `lens_name.lower().replace(' ', '-')` (lines 176-177; ASCII case). -/
def normalize_name (s : String) : String :=
  String.mk (s.data.map (fun c =>
    let c2 := if 'A' ≤ c ∧ c ≤ 'Z' then Char.ofNat (c.toNat + 32) else c
    if c2 = ' ' then '-' else c2))

/-- The write loop of `store_vectors` (lines 179-189): each chunk is put at
`embeddings/{lens-key}/{pillar-key}/{id}.json`; a failing put aborts the
loop, keeping the writes made so far. -/
def storeVectorsLoop (env : Env) (lensKey pillarKey : String) :
    List ChunkRecord → S3State → S3State × Option String
  | [], s => (s, none)
  | r :: t, s =>
    let key := "embeddings/" ++ lensKey ++ "/" ++ pillarKey ++ "/" ++
      r.id ++ ".json"
    match env.putFail key with
    | some e => (s, some e)
    | none => storeVectorsLoop env lensKey pillarKey t
        { s with chunkObjects := upsert s.chunkObjects key r }

/-- `store_vectors(chunks, lens_name, pillar)` (lines 166-189). -/
def store_vectors (env : Env) (chunks : List ChunkRecord)
    (lens_name pillar : String) (s : S3State) : S3State × Option String :=
  storeVectorsLoop env (normalize_name lens_name) (normalize_name pillar)
    chunks s

/-- The pure read-modify part of `update_index` (lines 201-217): default to
an empty index on `NoSuchKey`, create the lens entry when absent, then
set/overwrite the pillar entry. -/
def update_index (stored : Option Index) (lens_name pillar : String)
    (chunk_count : Int) (now : String) : Index :=
  let idx0 := stored.getD ⟨[]⟩
  let idx1 : Index :=
    match alookup lens_name idx0.lenses with
    | none => ⟨upsert idx0.lenses lens_name ⟨[]⟩⟩
    | some _ => idx0
  let entry := (alookup lens_name idx1.lenses).getD ⟨[]⟩
  ⟨upsert idx1.lenses lens_name ⟨upsert entry.pillars pillar ⟨chunk_count, now⟩⟩⟩

/-- `update_index` including the S3 write-back (lines 220-225): a failing
put leaves the stored index untouched. -/
def updateIndexS3 (env : Env) (lens_name pillar : String) (chunk_count : Int)
    (s : S3State) : S3State × Option String :=
  let newIndex := update_index s.indexObj lens_name pillar chunk_count
    env.indexNow
  match env.putFail ("metadata/index.json") with
  | some e => (s, some e)
  | none => ({ s with indexObj := some newIndex }, none)

/-- The Lambda response dict. -/
structure HttpResponse where
  statusCode : Nat
  body : String
deriving DecidableEq, Repr

/-- `json.dumps({'message': ..., 'chunks_created': n})` (lines 263-266). -/
def successBody (n : Nat) : String :=
  "\x7b\"message\": \"Document processed successfully\", \"chunks_created\": "
    ++ toString n ++ "\x7d"

/-- `json.dumps({'error': str(e)})` (lines 272-274). -/
def errorBody (e : String) : String :=
  "\x7b\"error\": " ++ jsonStr e ++ "\x7d"

/-- `str(KeyError(k))` for a missing event field. -/
def keyError (k : String) : String :=
  String.mk (Char.ofNat 39 :: k.data ++ [Char.ofNat 39])

/-- `event[k]` (lines 241-244): `KeyError` when the field is missing. -/
def pyGetItem (event : List (String × String)) (k : String) :
    Except String String :=
  match alookup k event with
  | some v => .ok v
  | none => .error (keyError k)

/-- `handler(event, context)` (lines 228-275): field reads, the pipeline,
the writes and the index update in order, the whole body inside one
`try/except` that converts any exception into a 500 response carrying
`str(e)`.  State mutated before the failing stage is kept (nothing is
rolled back). -/
def handler (env : Env) (event : List (String × String)) (s : S3State) :
    HttpResponse × S3State :=
  match pyGetItem event ("source_key") with
  | .error e => (⟨500, errorBody e⟩, s)
  | .ok source_key =>
    match pyGetItem event ("lens_name") with
    | .error e => (⟨500, errorBody e⟩, s)
    | .ok lens_name =>
      match pyGetItem event ("pillar") with
      | .error e => (⟨500, errorBody e⟩, s)
      | .ok pillar =>
        match pyGetItem event ("source_file") with
        | .error e => (⟨500, errorBody e⟩, s)
        | .ok source_file =>
          match process_document env source_key lens_name pillar source_file with
          | .error e => (⟨500, errorBody e⟩, s)
          | .ok chunks =>
            match store_vectors env chunks lens_name pillar s with
            | (s1, some e) => (⟨500, errorBody e⟩, s1)
            | (s1, none) =>
              match updateIndexS3 env lens_name pillar (chunks.length : Int) s1 with
              | (s2, some e) => (⟨500, errorBody e⟩, s2)
              | (s2, none) => (⟨200, successBody chunks.length⟩, s2)

/-- A run environment whose embedding service returns 3-dimensional
vectors, exhibiting the absence of a dimension check in the code. -/
def envWrongDim : Env :=
  ⟨fun _ => .ok ("hello".data), fun _ => .ok [1, 2, 3], fun _ => none,
    fun _ => "2024-01-01T00:00:00", "2024-01-01T00:00:01"⟩

/-- A run environment honouring the configured embedding dimension. -/
def envRightDim : Env :=
  ⟨fun _ => .ok ("hello".data),
    fun _ => .ok (List.replicate EMBEDDING_DIMENSIONS 0), fun _ => none,
    fun _ => "2024-01-01T00:00:00", "2024-01-01T00:00:01"⟩

/-- Two environments identical except for the wall clock (two runs of the
pipeline over the same document at different times). -/
def envRunA : Env :=
  ⟨fun _ => .ok ("hi".data), fun _ => .ok [1], fun _ => none,
    fun _ => "2024-01-01T00:00:00", "2024-01-01T00:00:01"⟩

/-- See `envRunA`: the same world, one day later. -/
def envRunB : Env :=
  ⟨fun _ => .ok ("hi".data), fun _ => .ok [1], fun _ => none,
    fun _ => "2024-01-02T00:00:00", "2024-01-02T00:00:01"⟩

/-- An environment whose embedding service always fails. -/
def envEmbedFail : Env :=
  ⟨fun _ => .ok ("hi".data), fun _ => .error ("boom"), fun _ => none,
    fun _ => "t0", "t1"⟩

/-- A well-formed invocation event. -/
def eventFull : List (String × String) :=
  [("source_key", "wellarchitected/doc.pdf"), ("lens_name", "My Lens"),
   ("pillar", "Op Ex"), ("source_file", "doc.pdf")]

/-- A 4000-character document whose only sentence break in the first
3200-character window sits at index 2800: 2800 letters, a period, then
1199 more letters. -/
def snapText : List Char :=
  List.replicate 2800 'a' ++ '.' :: List.replicate 1199 'a'

/-! ## Facts about the chunker primitives -/

theorem pyNorm_le_length (n : Nat) (i : Int) : pyNorm n i ≤ n := by
  unfold pyNorm
  split_ifs <;> omega

theorem pyNorm_diff_le (n : Nat) (a b : Int) (hab : a ≤ b) :
    (pyNorm n b : Int) - (pyNorm n a : Int) ≤ b - a := by
  unfold pyNorm
  split_ifs <;> omega

theorem pySlice_length_le (l : List Char) {a b : Int} (hab : a ≤ b) :
    ((pySlice l a b).length : Int) ≤ b - a := by
  have h1 := pyNorm_le_length l.length a
  have h2 := pyNorm_le_length l.length b
  have h3 := pyNorm_diff_le l.length a b hab
  unfold pySlice
  simp only [List.length_drop, List.length_take]
  omega

theorem mem_of_mem_pySlice {x : Char} {l : List Char} {a b : Int}
    (h : x ∈ pySlice l a b) : x ∈ l :=
  List.mem_of_mem_take (List.mem_of_mem_drop h)

theorem rfindAux_lt_length {ch : Char} :
    ∀ {l : List Char} {i : Nat}, rfindAux ch l = some i → i < l.length := by
  intro l
  induction l with
  | nil => intro i h; simp [rfindAux] at h
  | cons c t ih =>
    intro i h
    unfold rfindAux at h
    cases h2 : rfindAux ch t with
    | some j =>
      rw [h2] at h
      cases h
      have := ih h2
      simp
      omega
    | none =>
      rw [h2] at h
      by_cases hc : c = ch
      · rw [if_pos hc] at h; cases h; simp
      · rw [if_neg hc] at h; cases h

theorem rfind_lt_length (l : List Char) (ch : Char) :
    rfind l ch < (l.length : Int) := by
  cases h : rfindAux ch l with
  | some i =>
    have h2 := rfindAux_lt_length h
    simp only [rfind, h]
    omega
  | none =>
    simp only [rfind, h]
    omega

theorem rfindAux_eq_none {ch : Char} :
    ∀ {l : List Char}, ch ∉ l → rfindAux ch l = none := by
  intro l
  induction l with
  | nil => intro _; rfl
  | cons c t ih =>
    intro h
    simp only [List.mem_cons, not_or] at h
    unfold rfindAux
    rw [ih h.2, if_neg (fun hc => h.1 hc.symm)]

theorem rfind_eq_neg_one {l : List Char} {ch : Char} (h : ch ∉ l) :
    rfind l ch = -1 := by
  unfold rfind
  rw [rfindAux_eq_none h]

/-- One window never extends past `start + char_chunk_size`. -/
theorem chunkEnd_le (text : List Char) {ccs : Int} (s : Int) (hc : 1 ≤ ccs) :
    chunkEnd text ccs s ≤ s + ccs := by
  have hmax := max_lt (rfind_lt_length (pySlice text s (s + ccs)) '.')
    (rfind_lt_length (pySlice text s (s + ccs)) (Char.ofNat 10))
  have hl := pySlice_length_le text (show s ≤ s + ccs by omega)
  unfold chunkEnd
  dsimp only
  split_ifs <;> omega

/-- At the default window (3200 characters) a snap point must lie past
index 2240, so every window is at least 2242 characters wide. -/
theorem chunkEnd_default_lower (text : List Char) (s : Int) :
    s + 2242 ≤ chunkEnd text 3200 s := by
  unfold chunkEnd
  dsimp only
  split_ifs <;> omega

/-- Without a period or newline in the text no window ever snaps. -/
theorem chunkEnd_no_break {text : List Char} (s : Int)
    (h : ∀ ch ∈ text, ch ≠ '.' ∧ ch ≠ Char.ofNat 10) :
    chunkEnd text 3200 s = s + 3200 := by
  have hdot : '.' ∉ pySlice text s (s + 3200) := fun hm =>
    ((h '.' (mem_of_mem_pySlice hm)).1 rfl)
  have hnl : Char.ofNat 10 ∉ pySlice text s (s + 3200) := fun hm =>
    ((h (Char.ofNat 10) (mem_of_mem_pySlice hm)).2 rfl)
  unfold chunkEnd
  dsimp only
  rw [rfind_eq_neg_one hdot, rfind_eq_neg_one hnl, max_self]
  split_ifs <;> omega

/-- A window that reaches 240 characters past the end of the text was not
snapped: its end is the hard boundary `start + 3200`. -/
theorem chunkEnd_eq_of_past_end {text : List Char} {s : Int}
    (h : (text.length : Int) + 240 ≤ chunkEnd text 3200 s) :
    chunkEnd text 3200 s = s + 3200 := by
  have hmax := max_lt (rfind_lt_length (pySlice text s (s + 3200)) '.')
    (rfind_lt_length (pySlice text s (s + 3200)) (Char.ofNat 10))
  have hl := pySlice_length_le text (show s ≤ s + 3200 by omega)
  unfold chunkEnd at h ⊢
  dsimp only at h ⊢
  split_ifs at h ⊢ <;> omega

/-! ## The shape of the chunk sequence under the default configuration -/

/-- The chunk sequence the default-configuration loop emits from window
start `s` and index `idx`: each chunk is the stripped window slice with the
window's offsets, and the next window starts at `end - 240`. -/
inductive ChunkSeq (text : List Char) : Int → Nat → List Chunk → Prop where
  | nil : ∀ s idx, (text.length : Int) ≤ s → ChunkSeq text s idx []
  | cons : ∀ s idx rest, s < (text.length : Int) →
      ChunkSeq text (chunkEnd text 3200 s - 240) (idx + 1) rest →
      ChunkSeq text s idx
        (⟨pyStrip (pySlice text s (chunkEnd text 3200 s)), idx, s,
          chunkEnd text 3200 s⟩ :: rest)

/-- The loop of `chunk_text` at the default configuration succeeds on fuel
`2002 * fuel ≥ remaining` and emits a `ChunkSeq`. -/
theorem chunk_text_loop_spec (text : List Char) :
    ∀ (fuel : Nat) (s : Int) (idx : Nat) (acc : List Chunk), 0 ≤ s →
      (text.length : Int) ≤ s + 2002 * fuel →
      ∃ rest, chunk_text_loop text 3200 240 fuel s idx acc =
        some (acc ++ rest) ∧ ChunkSeq text s idx rest := by
  intro fuel
  induction fuel with
  | zero =>
    intro s idx acc hs hf
    have hle : (text.length : Int) ≤ s := by omega
    refine ⟨[], ?_, ChunkSeq.nil s idx hle⟩
    rw [List.append_nil]
    unfold chunk_text_loop
    rw [if_neg (by omega)]
  | succ fuel ih =>
    intro s idx acc hs hf
    by_cases hlt : s < (text.length : Int)
    · have hlow := chunkEnd_default_lower text s
      have hhigh := chunkEnd_le text s (show (1 : Int) ≤ 3200 by omega)
      obtain ⟨rest, heq, hseq⟩ := ih (chunkEnd text 3200 s - 240) (idx + 1)
        (acc ++ [⟨pyStrip (pySlice text s (chunkEnd text 3200 s)), idx, s,
          chunkEnd text 3200 s⟩]) (by omega) (by push_cast at hf ⊢; omega)
      refine ⟨⟨pyStrip (pySlice text s (chunkEnd text 3200 s)), idx, s,
        chunkEnd text 3200 s⟩ :: rest, ?_, ChunkSeq.cons s idx rest hlt hseq⟩
      unfold chunk_text_loop
      rw [if_pos hlt]
      rw [heq, List.append_assoc]
      rfl
    · refine ⟨[], ?_, ChunkSeq.nil s idx (by omega)⟩
      rw [List.append_nil]
      unfold chunk_text_loop
      rw [if_neg hlt]

/-- `chunk_text` at the default configuration emits a `ChunkSeq` from
window start 0 and chunk index 0 (in particular the fuel
`text.length + 1` suffices). -/
theorem chunk_text_default_spec (text : List Char) :
    ChunkSeq text 0 0 (chunk_text_default text) := by
  obtain ⟨rest, heq, hseq⟩ := chunk_text_loop_spec text (text.length + 1) 0 0
    [] le_rfl (by push_cast; omega)
  have h2 : chunk_text_default text = rest := by
    unfold chunk_text_default chunk_text_fuel
    norm_num at heq ⊢
    rw [heq]
    rfl
  rw [h2]
  exact hseq

/-- Per-chunk facts: starts run from `s` and stay below the text length,
each window is 2242 to 3200 characters wide, and each chunk's text is the
stripped slice at its recorded offsets. -/
theorem ChunkSeq.chunk_facts {text : List Char} {s : Int} {idx : Nat}
    {l : List Chunk} (h : ChunkSeq text s idx l) :
    ∀ c ∈ l, s ≤ c.start_char ∧ c.start_char < (text.length : Int) ∧
      c.start_char + 2242 ≤ c.end_char ∧ c.end_char ≤ c.start_char + 3200 ∧
      c.text = pyStrip (pySlice text c.start_char c.end_char) := by
  induction h with
  | nil s idx h => intro c hc; cases hc
  | cons s idx rest hlt hrest ih =>
    intro c hc
    have hlow := chunkEnd_default_lower text s
    have hhigh := chunkEnd_le text s (show (1 : Int) ≤ 3200 by omega)
    rcases List.mem_cons.mp hc with rfl | hmem
    · exact ⟨le_rfl, hlt, by dsimp only; omega, by dsimp only; omega, rfl⟩
    · have h2 := ih c hmem
      refine ⟨by omega, h2.2.1, h2.2.2⟩

/-- The chunk starts are strictly increasing. -/
theorem ChunkSeq.pairwise_start {text : List Char} {s : Int} {idx : Nat}
    {l : List Chunk} (h : ChunkSeq text s idx l) :
    List.Pairwise (fun a b => a.start_char < b.start_char) l := by
  induction h with
  | nil s idx h => exact List.Pairwise.nil
  | cons s idx rest hlt hrest ih =>
    refine List.Pairwise.cons (fun b hb => ?_) ih
    have hlow := chunkEnd_default_lower text s
    have h2 := hrest.chunk_facts b hb
    simp only
    omega

/-- The chunk indices are consecutive from `idx`. -/
theorem ChunkSeq.indices {text : List Char} {s : Int} {idx : Nat}
    {l : List Chunk} (h : ChunkSeq text s idx l) :
    l.map (fun c => c.chunk_index) = List.range' idx l.length := by
  induction h with
  | nil s idx h => rfl
  | cons s idx rest hlt hrest ih =>
    simp only [List.map_cons, List.length_cons, List.range'_succ]
    rw [ih]

/-- The recorded half-open ranges cover every position from `s` to the end
of the text. -/
theorem ChunkSeq.cover {text : List Char} {s : Int} {idx : Nat}
    {l : List Chunk} (h : ChunkSeq text s idx l) :
    ∀ k : Int, s ≤ k → k < (text.length : Int) →
      ∃ c ∈ l, c.start_char ≤ k ∧ k < c.end_char := by
  induction h with
  | nil s idx h => intro k hk1 hk2; omega
  | cons s idx rest hlt hrest ih =>
    intro k hk1 hk2
    by_cases hke : k < chunkEnd text 3200 s
    · exact ⟨_, List.mem_cons_self _ _, hk1, hke⟩
    · obtain ⟨c, hc, h1, h2⟩ := ih k (by omega) hk2
      exact ⟨c, List.mem_cons_of_mem _ hc, h1, h2⟩

/-- The first chunk of a nonempty sequence starts at `s`. -/
theorem ChunkSeq.head_start {text : List Char} {s : Int} {idx : Nat}
    {c : Chunk} {l : List Chunk} (h : ChunkSeq text s idx (c :: l)) :
    c.start_char = s := by
  cases h with
  | cons _ _ _ _ _ => rfl

/-- The first chunk of a nonempty sequence is the window chunk at `s`. -/
theorem ChunkSeq.head_eq {text : List Char} {s : Int} {idx : Nat}
    {c : Chunk} {l : List Chunk} (h : ChunkSeq text s idx (c :: l)) :
    c = ⟨pyStrip (pySlice text s (chunkEnd text 3200 s)), idx, s,
      chunkEnd text 3200 s⟩ := by
  cases h with
  | cons _ _ _ _ _ => rfl

/-- The last chunk was never snapped: its recorded end is the hard window
boundary, at least 240 characters past the end of the text. -/
theorem ChunkSeq.last_spec {text : List Char} {s : Int} {idx : Nat}
    {l : List Chunk} (h : ChunkSeq text s idx l) :
    ∀ c, l.getLast? = some c →
      c.end_char = c.start_char + 3200 ∧
      (text.length : Int) + 240 ≤ c.end_char := by
  induction h with
  | nil s idx h => intro c hc; cases hc
  | cons s idx rest hlt hrest ih =>
    intro c hc
    cases rest with
    | nil =>
      cases hc
      cases hrest with
      | nil _ _ h2 =>
        have h3 : (text.length : Int) + 240 ≤ chunkEnd text 3200 s := by
          omega
        exact ⟨chunkEnd_eq_of_past_end h3, h3⟩
    | cons c2 t =>
      rw [List.getLast?_cons_cons] at hc
      exact ih c hc

/-- In a period- and newline-free text every window ends at the hard
boundary and consecutive window starts differ by exactly 2960. -/
theorem ChunkSeq.hard_boundaries {text : List Char} {s : Int} {idx : Nat}
    {l : List Chunk} (hnb : ∀ ch ∈ text, ch ≠ '.' ∧ ch ≠ Char.ofNat 10)
    (h : ChunkSeq text s idx l) :
    (∀ c ∈ l, c.end_char = c.start_char + 3200) ∧
      List.Chain' (fun a b => b.start_char = a.start_char + 2960) l := by
  induction h with
  | nil s idx h => exact ⟨fun c hc => absurd hc (List.not_mem_nil c), trivial⟩
  | cons s idx rest hlt hrest ih =>
    have he := chunkEnd_no_break s hnb
    refine ⟨?_, ?_⟩
    · intro c hc
      rcases List.mem_cons.mp hc with rfl | hmem
      · simpa using he
      · exact ih.1 c hmem
    · cases rest with
      | nil => exact List.chain'_singleton _
      | cons c2 t =>
        rw [List.chain'_cons]
        refine ⟨?_, ih.2⟩
        have h2 := hrest.head_start
        simp only [h2, he]
        omega

theorem mem_of_getLast? {α : Type} {l : List α} {a : α}
    (h : l.getLast? = some a) : a ∈ l := by
  have h2 : a ∈ l.getLast? := by rw [h]; rfl
  obtain ⟨hne, rfl⟩ := List.mem_getLast?_eq_getLast h2
  exact List.getLast_mem hne

/-- A slice whose upper bound reaches the end of the list is a `drop`. -/
theorem pySlice_eq_drop {l : List Char} {a b : Int} (h0 : 0 ≤ a)
    (h1 : a ≤ (l.length : Int)) (h2 : (l.length : Int) ≤ b) :
    pySlice l a b = l.drop a.toNat := by
  have hb : pyNorm l.length b = l.length := by
    unfold pyNorm
    split_ifs <;> omega
  have ha : pyNorm l.length a = a.toNat := by
    unfold pyNorm
    split_ifs <;> omega
  unfold pySlice
  rw [hb, ha, List.take_length]

/-! ## The claims about the chunker -/

/-- Claim C1 (corrected): with `overlap ≥ chunk_size` (and a positive
chunk size) the loop of `chunk_text` makes no forward progress at all —
there is no clamp in the code — so on any nonempty text it never
terminates: the window start never increases, every fuel is exhausted. -/
theorem chunk_text_loop_no_progress (text : List Char) {ccs co : Int}
    (hc : 4 ≤ ccs) (hco : ccs ≤ co) (ht : text ≠ []) :
    ∀ (fuel : Nat) (s : Int) (idx : Nat) (acc : List Chunk), s ≤ 0 →
      chunk_text_loop text ccs co fuel s idx acc = none := by
  have hlen : 0 < text.length := List.length_pos.mpr ht
  intro fuel
  induction fuel with
  | zero =>
    intro s idx acc hs
    unfold chunk_text_loop
    rw [if_pos (by omega)]
  | succ fuel ih =>
    intro s idx acc hs
    have hhigh := chunkEnd_le text s (show (1 : Int) ≤ ccs by omega)
    unfold chunk_text_loop
    rw [if_pos (by omega)]
    exact ih _ _ _ (by omega)

/-- Claim C1 (corrected, amended): for every nonempty text and every
configuration with a positive `chunk_size` and `overlap ≥ chunk_size`,
`chunk_text` does not terminate: the advance `start = end - char_overlap`
never moves the window start forward and no forward-progress clamp exists,
so the loop runs forever (every fuel returns `none`). -/
theorem chunk_text_nonterminating_of_overlap_ge (text : List Char)
    (chunk_size overlap : Int) (ht : text ≠ []) (h1 : 1 ≤ chunk_size)
    (h2 : chunk_size ≤ overlap) :
    ∀ fuel : Nat, chunk_text_fuel fuel text chunk_size overlap = none := by
  intro fuel
  unfold chunk_text_fuel
  exact chunk_text_loop_no_progress text (by omega) (by omega) ht fuel 0 0 []
    le_rfl

theorem chunk_text_nonterminating_witness :
    ("ab".data ≠ ([] : List Char)) ∧ (1 : Int) ≤ 2 ∧ (2 : Int) ≤ 3 ∧
    chunk_text_fuel 5 ("ab".data) 2 3 = none :=
  ⟨by decide, by norm_num, by norm_num,
    chunk_text_nonterminating_of_overlap_ge ("ab".data) 2 3 (by decide)
      (by norm_num) (by norm_num) 5⟩

/-- Claim C1 (counterexample): at `chunk_size = 1`, `overlap = 1` (so
`overlap ≥ chunk_size`) the chunker does not terminate on the 5-character
text "abcde": the claimed forward-progress clamp does not exist. -/
theorem chunk_text_diverges_overlap_eq_window :
    chunkTextDiverges ("abcde".data) 1 1 := by
  intro fuel
  unfold chunk_text_fuel
  exact chunk_text_loop_no_progress ("abcde".data) (by norm_num) (by norm_num)
    (by decide) fuel 0 0 [] le_rfl

/-- Claim C3: under the default configuration the chunk sequence is
strictly ordered by `start_char`, every chunk has `end_char > start_char`,
the half-open ranges cover `[0, len(text))` with no gaps, and the
`chunk_index` values are exactly `0..n-1` in order. -/
theorem chunk_text_default_ordering_coverage_indices (text : List Char) :
    List.Pairwise (fun a b => a.start_char < b.start_char)
      (chunk_text_default text) ∧
    (∀ c ∈ chunk_text_default text, c.start_char < c.end_char) ∧
    (∀ k : Nat, k < text.length → ∃ c ∈ chunk_text_default text,
      c.start_char ≤ (k : Int) ∧ (k : Int) < c.end_char) ∧
    (chunk_text_default text).map (fun c => c.chunk_index) =
      List.range (chunk_text_default text).length := by
  have h := chunk_text_default_spec text
  refine ⟨h.pairwise_start, ?_, ?_, ?_⟩
  · intro c hc
    have h2 := h.chunk_facts c hc
    omega
  · intro k hk
    exact h.cover k (by omega) (by omega)
  · rw [h.indices, List.range_eq_range']

/-- Claim C9: the final chunk's `end_char` is not clamped to the document
length: it equals `start + 3200` (the hard window boundary, since the last
window is never snapped), which exceeds `len(text)`, while the chunk's text
is the whitespace-stripped slice of only the characters that exist. -/
theorem chunk_text_last_chunk_unclamped (text : List Char) (c : Chunk)
    (h : (chunk_text_default text).getLast? = some c) :
    c.end_char = c.start_char + 3200 ∧ (text.length : Int) < c.end_char ∧
    c.text = pyStrip (text.drop c.start_char.toNat) := by
  have hs := chunk_text_default_spec text
  have hlast := hs.last_spec c h
  have hfacts := hs.chunk_facts c (mem_of_getLast? h)
  refine ⟨hlast.1, by omega, ?_⟩
  rw [hfacts.2.2.2.2]
  rw [pySlice_eq_drop (by omega) (by omega) (by omega)]

theorem chunk_text_last_chunk_unclamped_witness :
    ((⟨"ab".data, 0, 0, 3200⟩ : Chunk).end_char =
      (⟨"ab".data, 0, 0, 3200⟩ : Chunk).start_char + 3200) ∧
    (("ab".data.length : Int) < (⟨"ab".data, 0, 0, 3200⟩ : Chunk).end_char) ∧
    ((⟨"ab".data, 0, 0, 3200⟩ : Chunk).text =
      pyStrip (("ab".data).drop
        (⟨"ab".data, 0, 0, 3200⟩ : Chunk).start_char.toNat)) :=
  chunk_text_last_chunk_unclamped ("ab".data) ⟨"ab".data, 0, 0, 3200⟩
    (by decide)

/-- Claim C4: boundary snapping at the default configuration.  (a) For a
4000-character text whose last period-or-newline within the first 3200-
character window sits at index 2800 (past the 70% threshold 2240), the
first chunk ends at 2801.  (b) For a text with no periods and no newlines,
every window ends exactly at the hard boundary `start + 3200` and
consecutive window starts differ by exactly `3200 - 240 = 2960`. -/
theorem chunk_text_boundary_snapping :
    (∀ (text : List Char) (c : Chunk), text.length = 4000 →
      max (rfind (pySlice text 0 3200) '.')
        (rfind (pySlice text 0 3200) (Char.ofNat 10)) = 2800 →
      (chunk_text_default text).head? = some c → c.end_char = 2801) ∧
    (∀ text : List Char, (∀ ch ∈ text, ch ≠ '.' ∧ ch ≠ Char.ofNat 10) →
      (∀ c ∈ chunk_text_default text, c.end_char = c.start_char + 3200) ∧
      List.Chain' (fun a b => b.start_char = a.start_char + 2960)
        (chunk_text_default text)) := by
  constructor
  · intro text c hlen hbp hc
    have he : chunkEnd text 3200 0 = 2801 := by
      unfold chunkEnd
      dsimp only
      rw [if_pos (by rw [hlen]; norm_num)]
      simp only [zero_add]
      rw [hbp, if_pos (by norm_num)]
      norm_num
    have hs := chunk_text_default_spec text
    cases h2 : chunk_text_default text with
    | nil =>
      rw [h2] at hc
      cases hc
    | cons c0 rest =>
      rw [h2] at hc hs
      cases hs with
      | cons _ _ _ _ _ =>
        cases hc
        simpa using he
  · intro text hnb
    have hs := chunk_text_default_spec text
    exact hs.hard_boundaries hnb

/-- Claim C8: `chunk_text("abcdefghij", chunk_size=3, overlap=1)` (character
window 12, character overlap 4) produces exactly two chunks, "abcdefghij"
and "ij"; the second is the 2-character tail of the first, so the texts
concatenate minus the 2-character overlap back to the original content, and
the two chunks receive distinct deterministic ids from
`generate_chunk_id` under the pipeline's metadata shape. -/
theorem chunk_text_two_chunk_scenario :
    (chunk_text_fuel 11 ("abcdefghij".data) 3 1).map
      (fun cs => cs.map (fun c => String.mk c.text)) =
        some ["abcdefghij", "ij"] ∧
    (chunk_text_fuel 11 ("abcdefghij".data) 3 1).map
      (fun cs => cs.map (fun c => c.chunk_index)) = some [0, 1] ∧
    (chunk_text_fuel 11 ("abcdefghij".data) 3 1).map
      (fun cs => cs.map (fun c => (c.start_char, c.end_char))) =
        some [(0, 12), (8, 20)] ∧
    ("abcdefghij".data).drop 8 = "ij".data ∧
    ("abcdefghij".data) ++ (("ij".data).drop 2) = "abcdefghij".data ∧
    generate_chunk_id ("abcdefghij".data)
        ⟨"WAF", "Security", "doc.pdf", 0, 0, 12, "2024-01-01T00:00:00"⟩ ≠
      generate_chunk_id ("ij".data)
        ⟨"WAF", "Security", "doc.pdf", 1, 8, 20, "2024-01-01T00:00:00"⟩ := by
  refine ⟨by decide, by decide, by decide, by decide, by decide, by decide⟩

/-! ## Facts about dict update and the index -/

theorem alookup_upsert_self {α : Type} (l : List (String × α)) (k : String)
    (v : α) : alookup k (upsert l k v) = some v := by
  induction l with
  | nil => simp [upsert, alookup]
  | cons h t ih =>
    by_cases hk : h.1 = k
    · simp [upsert, hk, alookup]
    · simp [upsert, hk, alookup, ih]

theorem alookup_upsert_ne {α : Type} (l : List (String × α)) {k k2 : String}
    (v : α) (h : k2 ≠ k) : alookup k2 (upsert l k v) = alookup k2 l := by
  induction l with
  | nil =>
    simp only [upsert, alookup]
    rw [if_neg (fun hc : k = k2 => h hc.symm)]
  | cons p t ih =>
    by_cases hk : p.1 = k
    · have hne1 : ¬ k = k2 := fun hc => h hc.symm
      have hne2 : ¬ p.1 = k2 := by rw [hk]; exact hne1
      simp only [upsert, if_pos hk, alookup, if_neg hne1, if_neg hne2]
    · simp only [upsert, if_neg hk, alookup, ih]

/-- After `update_index`, the updated pillar entry holds the given count
and timestamp. -/
theorem lookupPillar_update_index_self (stored : Option Index)
    (lens pillar : String) (c : Int) (now : String) :
    lookupPillar (update_index stored lens pillar c now) lens pillar =
      some ⟨c, now⟩ := by
  unfold update_index lookupPillar
  cases h2 : alookup lens (stored.getD ⟨[]⟩).lenses with
  | none => simp [h2, alookup_upsert_self]
  | some entry => simp [h2, alookup_upsert_self]

/-- After `update_index` at `(lens, pillar)`, any other `(lens2, pillar2)`
entry is exactly what it was before. -/
theorem lookupPillar_update_index_other (stored : Option Index)
    {lens pillar lens2 pillar2 : String} (c : Int) (now : String)
    (h : lens2 ≠ lens ∨ pillar2 ≠ pillar) :
    lookupPillar (update_index stored lens pillar c now) lens2 pillar2 =
      lookupPillar (stored.getD ⟨[]⟩) lens2 pillar2 := by
  by_cases hl : lens2 = lens
  · subst hl
    have hp : pillar2 ≠ pillar := h.resolve_left (fun hc => hc rfl)
    have hp2 : ¬ pillar = pillar2 := fun hc => hp hc.symm
    unfold update_index lookupPillar
    cases h2 : alookup lens2 (stored.getD ⟨[]⟩).lenses with
    | none =>
      simp [h2, alookup_upsert_self, alookup_upsert_ne _ _ hp, alookup, hp2]
    | some entry =>
      simp [h2, alookup_upsert_self, alookup_upsert_ne _ _ hp, hp2]
  · unfold update_index lookupPillar
    cases h2 : alookup lens (stored.getD ⟨[]⟩).lenses with
    | none => simp [h2, alookup_upsert_ne _ _ hl]
    | some entry => simp [h2, alookup_upsert_ne _ _ hl]

/-- Claim C6: sequential index updates accumulate.  (a) From any starting
index, `update(L,"A",5)` then `update(L,"B",3)` leaves pillar "A" with
count 5 (and its first timestamp) and pillar "B" with count 3 under lens
`L`.  (b) No update removes an existing `(lens, pillar)` entry: entries are
only added or replaced. -/
theorem update_index_accumulates :
    (∀ (st : Option Index) (L t1 t2 : String),
      lookupPillar (update_index (some (update_index st L ("A") 5 t1))
          L ("B") 3 t2) L ("A") = some ⟨5, t1⟩ ∧
      lookupPillar (update_index (some (update_index st L ("A") 5 t1))
          L ("B") 3 t2) L ("B") = some ⟨3, t2⟩) ∧
    (∀ (st : Option Index) (L P : String) (c : Int) (t L2 P2 : String)
        (e : PillarEntry),
      lookupPillar (st.getD ⟨[]⟩) L2 P2 = some e →
      (lookupPillar (update_index st L P c t) L2 P2).isSome) := by
  constructor
  · intro st L t1 t2
    constructor
    · rw [lookupPillar_update_index_other _ 3 t2 (Or.inr (by decide))]
      simp [lookupPillar_update_index_self]
    · exact lookupPillar_update_index_self _ L ("B") 3 t2
  · intro st L P c t L2 P2 e he
    by_cases hl : L2 = L ∧ P2 = P
    · obtain ⟨rfl, rfl⟩ := hl
      rw [lookupPillar_update_index_self]
      rfl
    · rw [lookupPillar_update_index_other]
      · rw [he]; rfl
      · by_cases h1 : L2 = L
        · exact Or.inr (fun hc => hl ⟨h1, hc⟩)
        · exact Or.inl h1

/-! ## Facts about the handler stages -/

theorem pyGetItem_ok {event : List (String × String)} {k v : String}
    (h : alookup k event = some v) : pyGetItem event k = .ok v := by
  unfold pyGetItem
  rw [h]

/-- The write loop of `store_vectors` never touches the index object. -/
theorem storeVectorsLoop_indexObj (env : Env) (lk pk : String) :
    ∀ (recs : List ChunkRecord) (s : S3State),
      (storeVectorsLoop env lk pk recs s).1.indexObj = s.indexObj := by
  intro recs
  induction recs with
  | nil => intro s; rfl
  | cons r t ih =>
    intro s
    unfold storeVectorsLoop
    dsimp only
    cases h : env.putFail ("embeddings/" ++ lk ++ "/" ++ pk ++ "/" ++ r.id ++
      ".json") with
    | some e => simp [h]
    | none => simp [h, ih]

/-- If the embedding of any chunk of the list fails, `embedChunks` fails
(with the first such error). -/
theorem embedChunks_error (env : Env) (L P sf : String) :
    ∀ (chunks : List Chunk), (∃ c ∈ chunks, ∃ e, env.embed c.text = .error e)
      → ∃ e2, embedChunks env L P sf chunks = .error e2 := by
  intro chunks
  induction chunks with
  | nil => intro h; obtain ⟨c, hc, _⟩ := h; cases hc
  | cons c t ih =>
    intro h
    unfold embedChunks
    cases hc : env.embed c.text with
    | error e => exact ⟨e, rfl⟩
    | ok v =>
      have h2 : ∃ c2 ∈ t, ∃ e, env.embed c2.text = .error e := by
        obtain ⟨c2, hmem, e, he⟩ := h
        rcases List.mem_cons.mp hmem with rfl | hmem2
        · rw [hc] at he; cases he
        · exact ⟨c2, hmem2, e, he⟩
      obtain ⟨e2, he2⟩ := ih h2
      refine ⟨e2, ?_⟩
      dsimp only
      rw [he2]

/-- Every record built by a successful `embedChunks` run carries an
embedding exactly as returned by the service for its chunk text. -/
theorem embedChunks_ok_length (env : Env) (L P sf : String)
    (hdim : ∀ t v, env.embed t = .ok v → v.length = EMBEDDING_DIMENSIONS) :
    ∀ (chunks : List Chunk) (recs : List ChunkRecord),
      embedChunks env L P sf chunks = .ok recs →
      ∀ r ∈ recs, r.embedding.length = EMBEDDING_DIMENSIONS := by
  intro chunks
  induction chunks with
  | nil =>
    intro recs h r hr
    cases h
    cases hr
  | cons c t ih =>
    intro recs h r hr
    unfold embedChunks at h
    cases hc : env.embed c.text with
    | error e => rw [hc] at h; cases h
    | ok v =>
      rw [hc] at h
      cases ht : embedChunks env L P sf t with
      | error e => rw [ht] at h; cases h
      | ok tail =>
        rw [ht] at h
        cases h
        rcases List.mem_cons.mp hr with rfl | hmem
        · exact hdim c.text v hc
        · exact ih tail ht r hmem

/-- `embedChunks` depends on the environment only through the embedding
service and the per-chunk clock. -/
theorem embedChunks_env_eq (e1 e2 : Env) (hembed : e1.embed = e2.embed)
    (hnow : e1.chunkNow = e2.chunkNow) (L P sf : String) :
    ∀ chunks, embedChunks e1 L P sf chunks = embedChunks e2 L P sf chunks := by
  intro chunks
  induction chunks with
  | nil => rfl
  | cons c t ih =>
    unfold embedChunks
    rw [hembed, hnow, ih]

/-- Claim C2 (corrected, amended): `process_document` is deterministic
given the recorded timestamps — two runs over the same document with the
same per-chunk `processed_at` readings produce identical chunk ids and
identical records.  (With different readings the ids differ, because
`generate_chunk_id` hashes the full metadata, `processed_at` included: see
the counterexample.) -/
theorem process_document_deterministic_given_timestamps
    (read : String → Except String (List Char))
    (embed : List Char → Except String (List Int))
    (pf : String → Option String) (now1 now2 : Nat → String)
    (inow1 inow2 : String) (sk L P sf : String)
    (h : ∀ i, now1 i = now2 i) :
    process_document ⟨read, embed, pf, now1, inow1⟩ sk L P sf =
      process_document ⟨read, embed, pf, now2, inow2⟩ sk L P sf := by
  have hn : now1 = now2 := funext h
  subst hn
  unfold process_document
  dsimp only
  cases hr : read sk with
  | error e => rfl
  | ok content =>
    dsimp only
    exact embedChunks_env_eq ⟨read, embed, pf, now1, inow1⟩
      ⟨read, embed, pf, now1, inow2⟩ rfl rfl L P sf _

theorem process_document_deterministic_witness :
    process_document ⟨fun _ => Except.ok ("hi".data),
        fun _ => Except.ok [1], fun _ => none, fun _ => "t", "u1"⟩
        ("k") ("L") ("P") ("f") =
      process_document ⟨fun _ => Except.ok ("hi".data),
        fun _ => Except.ok [1], fun _ => none, fun _ => "t", "u2"⟩
        ("k") ("L") ("P") ("f") :=
  process_document_deterministic_given_timestamps _ _ _ _ _ _ _ ("k") ("L")
    ("P") ("f") (fun _ => rfl)

/-- Claim C2 (counterexample): processing the same document (same source
text, lens, pillar, source file) in two runs whose `processed_at` readings
differ yields different chunk ids and different stored records — a rerun
creates new objects instead of overwriting. -/
theorem process_document_ids_differ_across_timestamps :
    (process_document envRunA ("k") ("L") ("P") ("f")).toOption.map
        (fun l => l.map (fun r => r.id)) ≠
      (process_document envRunB ("k") ("L") ("P") ("f")).toOption.map
        (fun l => l.map (fun r => r.id)) ∧
    (process_document envRunA ("k") ("L") ("P") ("f")).toOption ≠
      (process_document envRunB ("k") ("L") ("P") ("f")).toOption :=
  ⟨by decide, by decide⟩

/-- Claim C7 (corrected, amended): the code performs no dimension check on
the embedding response; every record stores the vector exactly as returned.
Under the assumption that the service honours the configured dimension,
every `ChunkRecord` produced by `process_document` carries an embedding of
length `EMBEDDING_DIMENSIONS`. -/
theorem process_document_embedding_dimension (env : Env)
    (sk L P sf : String) (recs : List ChunkRecord)
    (hdim : ∀ t v, env.embed t = .ok v → v.length = EMBEDDING_DIMENSIONS)
    (hok : process_document env sk L P sf = .ok recs) :
    ∀ r ∈ recs, r.embedding.length = EMBEDDING_DIMENSIONS := by
  unfold process_document at hok
  cases hr : env.sourceRead sk with
  | error e => rw [hr] at hok; cases hok
  | ok content =>
    rw [hr] at hok
    exact embedChunks_ok_length env L P sf hdim _ recs hok

theorem process_document_embedding_dimension_witness :
    ((process_document envRightDim ("k") ("L") ("P") ("f")).toOption.getD
      []).all (fun r => decide (r.embedding.length = EMBEDDING_DIMENSIONS))
      = true := by
  have h := process_document_embedding_dimension envRightDim ("k") ("L")
    ("P") ("f")
    ((process_document envRightDim ("k") ("L") ("P") ("f")).toOption.getD [])
    (fun t v hv => by cases hv; simp [envRightDim]) (by rfl)
  exact List.all_eq_true.mpr (fun r hr => decide_eq_true (h r hr))

/-- Claim C7 (counterexample): an embedding response of the wrong dimension
is not rejected — the handler succeeds with a 200 and the 3-dimensional
vector is stored. -/
theorem handler_stores_wrong_dimension_embedding :
    (handler envWrongDim eventFull ⟨[], none⟩).1.statusCode = 200 ∧
    ((handler envWrongDim eventFull ⟨[], none⟩).2.chunkObjects.map
      (fun kv => kv.2.embedding.length)) = [3] ∧
    (3 : Nat) ≠ EMBEDDING_DIMENSIONS :=
  ⟨by decide, by decide, by decide⟩

/-- With no write failures the store loop reports success. -/
theorem storeVectorsLoop_none (env : Env) (hp : ∀ k, env.putFail k = none)
    (lk pk : String) : ∀ (recs : List ChunkRecord) (s : S3State),
      (storeVectorsLoop env lk pk recs s).2 = none := by
  intro recs
  induction recs with
  | nil => intro s; rfl
  | cons r t ih =>
    intro s
    unfold storeVectorsLoop
    dsimp only
    simp only [hp]
    exact ih _

/-- Claim C5: the handler is total and its response is always one of the
two documented shapes.  Either a 500 whose body carries some error's
textual description, or — when every stage succeeded — a 200 whose body
reports `chunks_created = n` for the `n` records produced by
`process_document`, with the same `n` written into the index entry for the
event's lens and pillar.  A missing `source_key` field in particular
produces the 500 carrying the `KeyError` text. -/
theorem handler_total_response (env : Env) (event : List (String × String))
    (s : S3State) :
    (((handler env event s).1.statusCode = 500 ∧
        ∃ e, (handler env event s).1.body = errorBody e) ∨
      ((handler env event s).1.statusCode = 200 ∧
        ∃ sk L P sf recs,
          alookup ("source_key") event = some sk ∧
          alookup ("lens_name") event = some L ∧
          alookup ("pillar") event = some P ∧
          alookup ("source_file") event = some sf ∧
          process_document env sk L P sf = .ok recs ∧
          (handler env event s).1.body = successBody recs.length ∧
          ∃ i, (handler env event s).2.indexObj = some i ∧
            lookupPillar i L P = some ⟨(recs.length : Int), env.indexNow⟩)) ∧
    (alookup ("source_key") event = none →
      (handler env event s).1 = ⟨500, errorBody (keyError ("source_key"))⟩) ∧
    (∀ (sk L P sf : String) (recs : List ChunkRecord),
      alookup ("source_key") event = some sk →
      alookup ("lens_name") event = some L →
      alookup ("pillar") event = some P →
      alookup ("source_file") event = some sf →
      process_document env sk L P sf = .ok recs →
      (∀ k, env.putFail k = none) →
      (handler env event s).1 = ⟨200, successBody recs.length⟩)
    := by
  refine ⟨?_, ?_, ?_⟩
  · unfold handler
    split
    · next e heq => exact Or.inl ⟨rfl, e, rfl⟩
    · next sk heq1 =>
      split
      · next e heq => exact Or.inl ⟨rfl, e, rfl⟩
      · next L heq2 =>
        split
        · next e heq => exact Or.inl ⟨rfl, e, rfl⟩
        · next P heq3 =>
          split
          · next e heq => exact Or.inl ⟨rfl, e, rfl⟩
          · next sf heq4 =>
            split
            · next e heq => exact Or.inl ⟨rfl, e, rfl⟩
            · next recs heq5 =>
              split
              · next s1 e heq6 => exact Or.inl ⟨rfl, e, rfl⟩
              · next s1 heq6 =>
                split
                · next s2 e heq7 => exact Or.inl ⟨rfl, e, rfl⟩
                · next s2 heq7 =>
                  refine Or.inr ⟨rfl, sk, L, P, sf, recs, ?_, ?_, ?_, ?_,
                    heq5, rfl, ?_⟩
                  · unfold pyGetItem at heq1
                    cases hl : alookup ("source_key") event with
                    | none => rw [hl] at heq1; cases heq1
                    | some v => rw [hl] at heq1; cases heq1; rfl
                  · unfold pyGetItem at heq2
                    cases hl : alookup ("lens_name") event with
                    | none => rw [hl] at heq2; cases heq2
                    | some v => rw [hl] at heq2; cases heq2; rfl
                  · unfold pyGetItem at heq3
                    cases hl : alookup ("pillar") event with
                    | none => rw [hl] at heq3; cases heq3
                    | some v => rw [hl] at heq3; cases heq3; rfl
                  · unfold pyGetItem at heq4
                    cases hl : alookup ("source_file") event with
                    | none => rw [hl] at heq4; cases heq4
                    | some v => rw [hl] at heq4; cases heq4; rfl
                  · unfold updateIndexS3 at heq7
                    dsimp only at heq7
                    cases hp : env.putFail ("metadata/index.json") with
                    | some e => rw [hp] at heq7; cases heq7
                    | none =>
                      rw [hp] at heq7
                      cases heq7
                      refine ⟨_, rfl, ?_⟩
                      exact lookupPillar_update_index_self _ L P _ env.indexNow
  · intro h0
    have h1 : pyGetItem event ("source_key") =
        .error (keyError ("source_key")) := by
      unfold pyGetItem
      rw [h0]
    simp [handler, h1]
  · intro sk L P sf recs h1 h2 h3 h4 hpd hp
    simp only [handler, pyGetItem_ok h1, pyGetItem_ok h2, pyGetItem_ok h3,
      pyGetItem_ok h4, hpd]
    cases hsp : store_vectors env recs L P s with
    | mk s1 o =>
      have h5 : o = none := by
        have h6 := storeVectorsLoop_none env hp (normalize_name L)
          (normalize_name P) recs s
        unfold store_vectors at hsp
        rw [hsp] at h6
        exact h6
      subst h5
      simp [updateIndexS3, hp]

/-- Claim C10: an embedding failure is atomic with respect to storage.
(a) If the embedding of any chunk of the document fails,
`process_document` fails.  (b) When `process_document` fails, the handler
returns the 500 response and the S3 state is exactly the initial one — no
chunk record was written, because `store_vectors` runs only after every
chunk of the document has been embedded.  (c) Conversely the chunk-object
store can change only in a run whose `process_document` succeeded, so
partial persisted state can arise only from a failure at or after
`store_vectors`. -/
theorem embedding_failure_writes_nothing :
    (∀ (env : Env) (sk L P sf : String) (content : List Char),
      env.sourceRead sk = .ok content →
      (∃ c ∈ chunk_text_default content, ∃ e, env.embed c.text = .error e) →
      ∃ e2, process_document env sk L P sf = .error e2) ∧
    (∀ (env : Env) (event : List (String × String)) (s : S3State)
        (sk L P sf e : String),
      alookup ("source_key") event = some sk →
      alookup ("lens_name") event = some L →
      alookup ("pillar") event = some P →
      alookup ("source_file") event = some sf →
      process_document env sk L P sf = .error e →
      handler env event s = (⟨500, errorBody e⟩, s)) ∧
    (∀ (env : Env) (event : List (String × String)) (s : S3State),
      (handler env event s).2.chunkObjects ≠ s.chunkObjects →
      ∃ sk L P sf recs,
        alookup ("source_key") event = some sk ∧
        alookup ("lens_name") event = some L ∧
        alookup ("pillar") event = some P ∧
        alookup ("source_file") event = some sf ∧
        process_document env sk L P sf = .ok recs) := by
  refine ⟨?_, ?_, ?_⟩
  · intro env sk L P sf content hread hfail
    unfold process_document
    rw [hread]
    exact embedChunks_error env L P sf _ hfail
  · intro env event s sk L P sf e h1 h2 h3 h4 hpd
    simp [handler, pyGetItem_ok h1, pyGetItem_ok h2, pyGetItem_ok h3,
      pyGetItem_ok h4, hpd]
  · intro env event s hne
    revert hne
    unfold handler
    split
    · next e heq => intro hne; exact absurd rfl hne
    · next sk heq1 =>
      split
      · next e heq => intro hne; exact absurd rfl hne
      · next L heq2 =>
        split
        · next e heq => intro hne; exact absurd rfl hne
        · next P heq3 =>
          split
          · next e heq => intro hne; exact absurd rfl hne
          · next sf heq4 =>
            split
            · next e heq => intro hne; exact absurd rfl hne
            · next recs heq5 =>
              have hlook : ∀ (k : String) (v : String),
                  pyGetItem event k = .ok v → alookup k event = some v := by
                intro k v hv
                unfold pyGetItem at hv
                cases hl : alookup k event with
                | none => rw [hl] at hv; cases hv
                | some v2 => rw [hl] at hv; cases hv; rfl
              split
              · next s1 e heq6 =>
                intro _
                exact ⟨sk, L, P, sf, recs, hlook _ _ heq1, hlook _ _ heq2,
                  hlook _ _ heq3, hlook _ _ heq4, heq5⟩
              · next s1 heq6 =>
                split
                · next s2 e heq7 =>
                  intro _
                  exact ⟨sk, L, P, sf, recs, hlook _ _ heq1, hlook _ _ heq2,
                    hlook _ _ heq3, hlook _ _ heq4, heq5⟩
                · next s2 heq7 =>
                  intro _
                  exact ⟨sk, L, P, sf, recs, hlook _ _ heq1, hlook _ _ heq2,
                    hlook _ _ heq3, hlook _ _ heq4, heq5⟩

/-- The last occurrence of `ch` in `l1 ++ ch :: l2` with `ch ∉ l2` is at
index `l1.length`. -/
theorem rfindAux_append_not_mem (ch : Char) (l2 : List Char) (h : ch ∉ l2) :
    ∀ l1 : List Char, rfindAux ch (l1 ++ ch :: l2) = some l1.length := by
  intro l1
  induction l1 with
  | nil => simp [rfindAux, rfindAux_eq_none h]
  | cons c t ih => simp [rfindAux, ih]

theorem snapText_length : snapText.length = 4000 := by
  unfold snapText
  simp only [List.length_append, List.length_replicate, List.length_cons]

/-- The first 3200-character window of `snapText`. -/
theorem snapText_window :
    pySlice snapText 0 3200 =
      List.replicate 2800 'a' ++ '.' :: List.replicate 399 'a' := by
  have hlen := snapText_length
  have h1 : pyNorm snapText.length 0 = 0 := by
    unfold pyNorm
    split_ifs <;> omega
  have h2 : pyNorm snapText.length 3200 = 3200 := by
    unfold pyNorm
    split_ifs <;> omega
  unfold pySlice
  rw [h1, h2, List.drop_zero]
  unfold snapText
  rw [List.take_append_eq_append_take]
  rw [List.take_of_length_le (by simp only [List.length_replicate]; norm_num)]
  simp only [List.length_replicate]
  norm_num

/-- The last period-or-newline of `snapText`'s first window sits at index
2800. -/
theorem snapText_break :
    max (rfind (pySlice snapText 0 3200) '.')
      (rfind (pySlice snapText 0 3200) (Char.ofNat 10)) = 2800 := by
  rw [snapText_window]
  have hdot :
      rfind (List.replicate 2800 'a' ++ '.' :: List.replicate 399 'a') '.'
        = 2800 := by
    unfold rfind
    rw [rfindAux_append_not_mem '.' _ (fun hm => by
      rw [List.mem_replicate] at hm
      exact absurd hm.2 (by decide))]
    simp only [List.length_replicate]
    norm_num
  have hnl :
      rfind (List.replicate 2800 'a' ++ '.' :: List.replicate 399 'a')
        (Char.ofNat 10) = -1 := by
    refine rfind_eq_neg_one (fun hm => ?_)
    simp only [List.mem_append, List.mem_cons, List.mem_replicate] at hm
    rcases hm with ⟨_, hm⟩ | hm | ⟨_, hm⟩ <;> exact absurd hm (by decide)
  rw [hdot, hnl]
  decide

/-- The first window of `snapText` snaps to end 2801. -/
theorem snapText_chunkEnd : chunkEnd snapText 3200 0 = 2801 := by
  have hlen := snapText_length
  unfold chunkEnd
  dsimp only
  rw [if_pos (by rw [hlen]; norm_num)]
  simp only [zero_add]
  rw [snapText_break, if_pos (by norm_num)]
  norm_num

theorem chunk_text_boundary_snapping_witness :
    ((⟨pyStrip (pySlice snapText 0 2801), 0, 0, 2801⟩ : Chunk).end_char
      = 2801) ∧
    (∀ c ∈ chunk_text_default ("aaaa".data),
      c.end_char = c.start_char + 3200) := by
  have hc : (chunk_text_default snapText).head? =
      some ⟨pyStrip (pySlice snapText 0 2801), 0, 0, 2801⟩ := by
    have hs := chunk_text_default_spec snapText
    cases h2 : chunk_text_default snapText with
    | nil =>
      rw [h2] at hs
      cases hs with
      | nil _ _ hle =>
        rw [snapText_length] at hle
        omega
    | cons c0 rest =>
      rw [h2] at hs
      rw [List.head?_cons, hs.head_eq, snapText_chunkEnd]
  exact ⟨chunk_text_boundary_snapping.1 snapText
      ⟨pyStrip (pySlice snapText 0 2801), 0, 0, 2801⟩ snapText_length
      snapText_break hc,
    (chunk_text_boundary_snapping.2 ("aaaa".data) (by decide)).1⟩

theorem embedding_failure_writes_nothing_witness :
    handler envEmbedFail eventFull ⟨[], none⟩ =
      (⟨500, errorBody ("boom")⟩, ⟨[], none⟩) :=
  embedding_failure_writes_nothing.2.1 envEmbedFail eventFull ⟨[], none⟩
    ("wellarchitected/doc.pdf") ("My Lens") ("Op Ex") ("doc.pdf") ("boom")
    (by decide) (by decide) (by decide) (by decide) (by rfl)
